import Mathlib

/-!
Shallow embedding of the libusbx allocation/logging core
(src/libusb/allocator.c, src/libusb/logger.c) and verification of the
frozen claims about it.

Modelling conventions:
* machine addresses (C pointers, including the char-pointer provenance
  fields, which the code stores but never dereferences) are Nat;
* size_t / ulong arithmetic wraps modulo 2^64 (LP64 platform), written
  explicitly with % USIZE;
* the process heap holding the debug registry entries is an association
  list from entry addresses to entry records; the platform memory
  provider used by the pass-through backend is an association list from
  block addresses to block sizes;
* malloc/realloc success and the address they return are supplied as an
  explicit oracle argument (r : Option Addr); the theorems put the
  freshness facts real malloc guarantees into hypotheses;
* the double timestamp is stored by the code and never computed with; it
  is carried as an opaque integer tag.
-/

abbrev Addr := Nat

/-- Word size of size_t / unsigned long on the modelled LP64 platform. -/
def USIZE : Nat := 2 ^ 64

/-! ### Generic association list (Nat-keyed heap) -/

def hget {β : Type} : List (Nat × β) → Nat → Option β
  | [], _ => none
  | x :: t, a => if a = x.1 then some x.2 else hget t a

def hset {β : Type} : List (Nat × β) → Nat → β → List (Nat × β)
  | [], a, e => [(a, e)]
  | x :: t, a, e => if a = x.1 then (a, e) :: t else x :: hset t a e

def hdel {β : Type} : List (Nat × β) → Nat → List (Nat × β)
  | [], _ => []
  | x :: t, a => if a = x.1 then hdel t a else x :: hdel t a

/-! ### Debug tracking backend: registry data model (allocator.c) -/

/-- The eight non-link fields of struct usbi_pool_entry: provenance
(label/file/func pointers, line, timestamp) and the request's
head/count/size triple. -/
structure Payload where
  label : Nat
  file : Nat
  func : Nat
  line : Int
  stamp : Int
  head : Nat
  count : Nat
  size : Nat
deriving DecidableEq, Repr

/-- struct usbi_pool_entry: registry links plus the stored payload. -/
structure usbi_pool_entry where
  prev : Option Addr
  next : Option Addr
  data : Payload
deriving DecidableEq, Repr

instance : Inhabited usbi_pool_entry := ⟨⟨none, none, ⟨0, 0, 0, 0, 0, 0, 0, 0⟩⟩⟩

abbrev Heap := List (Nat × usbi_pool_entry)

/-- struct usbi_pool_control. -/
structure usbi_pool_control where
  first : Option Addr
  last : Option Addr
deriving DecidableEq, Repr

/-- A debug-backend state: the entry records living in memory plus the
registry control block. -/
structure PoolState where
  heap : Heap
  pool : usbi_pool_control
deriving DecidableEq, Repr

/-- Reading a field of an entry through a pointer; in C a read through a
pointer that does not address a live entry is undefined behavior, here it
yields the default entry (all theorems only read live addresses). -/
def getE (h : Heap) (a : Addr) : usbi_pool_entry := (hget h a).getD default

/-- sizeof(usbi_pool_entry) on LP64: ten 8-byte fields, no padding. -/
def entrySize : Nat := 80

def USBI_MEM_TO_ENTRY (m : Addr) : Addr := m - entrySize

def USBI_ENTRY_TO_MEM (a : Addr) : Addr := a + entrySize

/-- usbi_pool_link, statement by statement:
entry->next = NULL; entry->prev = pool->last; pool->last = entry;
if (!pool->first) pool->first = entry. -/
def usbi_pool_link (s : PoolState) (a : Addr) : PoolState :=
  let h1 := hset s.heap a { getE s.heap a with next := none }
  let h2 := hset h1 a { getE h1 a with prev := s.pool.last }
  let p1 : usbi_pool_control := { s.pool with last := some a }
  let p2 := if p1.first = none then { p1 with first := some a } else p1
  { heap := h2, pool := p2 }

/-- usbi_pool_unlink, statement by statement; every pointer read is
re-read from the heap at the program point where the C reads it. -/
def usbi_pool_unlink (s : PoolState) (a : Addr) : PoolState :=
  let s1 : PoolState :=
    match (getE s.heap a).prev with
    | some p =>
        { s with heap := hset s.heap p { getE s.heap p with next := (getE s.heap a).next } }
    | none => { s with pool := { s.pool with first := (getE s.heap a).next } }
  let s2 : PoolState :=
    match (getE s1.heap a).next with
    | some n =>
        { s1 with heap := hset s1.heap n { getE s1.heap n with prev := (getE s1.heap a).prev } }
    | none => { s1 with pool := { s1.pool with last := (getE s1.heap a).prev } }
  let h3 := hset s2.heap a { getE s2.heap a with prev := none }
  let h4 := hset h3 a { getE h3 a with next := none }
  { s2 with heap := h4 }

/-- usbi_pool_relink: after the entry's address changed, repair everyone
else's pointers to it (the entry's own prev/next are still good). -/
def usbi_pool_relink (s : PoolState) (a : Addr) : PoolState :=
  let s1 : PoolState :=
    match (getE s.heap a).prev with
    | some p => { s with heap := hset s.heap p { getE s.heap p with next := some a } }
    | none => { s with pool := { s.pool with first := some a } }
  match (getE s1.heap a).next with
  | some n => { s1 with heap := hset s1.heap n { getE s1.heap n with prev := some a } }
  | none => { s1 with pool := { s1.pool with last := some a } }

/-- total = head + (count * size) + sizeof(usbi_pool_entry), in wrapping
size_t arithmetic, as computed by usbi_debug_allocator_allocate. -/
def debugTotal (head count size : Nat) : Nat :=
  (head + count * size + entrySize) % USIZE

/-- usbi_debug_allocator_allocate.  mem is the user-block address (or
none), r is the result of the malloc/realloc call the branch would make
(some address on success, none on failure); malloc'd entry memory is
uninitialized in C until the field assignments and usbi_pool_link run, so
the fresh record's links start as none, which link immediately overwrites. -/
def usbi_debug_allocator_allocate (s : PoolState) (d : Payload) (mem : Option Addr)
    (head count size : Nat) (r : Option Addr) : PoolState × Option Addr :=
  let total := debugTotal head count size
  if total = 0 then
    match mem with
    | some m =>
        let ptr := USBI_MEM_TO_ENTRY m
        let s1 := usbi_pool_unlink s ptr
        ({ s1 with heap := hdel s1.heap ptr }, none)
    | none => (s, none)
  else
    match mem with
    | some m =>
        let ptr := USBI_MEM_TO_ENTRY m
        match r with
        | none => (s, none)
        | some a =>
            if a = ptr then (s, some (USBI_ENTRY_TO_MEM a))
            else
              let e := getE s.heap ptr
              let s1 : PoolState := { s with heap := hset (hdel s.heap ptr) a e }
              let s2 := usbi_pool_relink s1 a
              (s2, some (USBI_ENTRY_TO_MEM a))
    | none =>
        match r with
        | none => (s, none)
        | some a =>
            let e : usbi_pool_entry := { prev := none, next := none, data := d }
            let s1 : PoolState := { s with heap := hset s.heap a e }
            let s2 := usbi_pool_link s1 a
            (s2, some (USBI_ENTRY_TO_MEM a))

/-- The walk loop of usbi_debug_allocator_walk, with explicit fuel (the
C while loop has none; on a well-formed registry the heap size bounds the
number of steps).  Returns the entries it visits, in visit order. -/
def walkFrom (h : Heap) : Nat → Option Addr → List (Addr × usbi_pool_entry)
  | 0, _ => []
  | _ + 1, none => []
  | fuel + 1, some a =>
      match hget h a with
      | none => []
      | some e => (a, e) :: walkFrom h fuel e.next

/-- usbi_debug_allocator_walk: fold the visitor over the traversal,
passing it the stored payload and USBI_ENTRY_TO_MEM(entry). -/
def usbi_debug_allocator_walk {α : Type} (s : PoolState) (fuel : Nat) (walkinfo : α)
    (visit : α → Addr → Payload → α) : α :=
  (walkFrom s.heap fuel s.pool.first).foldl
    (fun acc x => visit acc (USBI_ENTRY_TO_MEM x.1) x.2.data) walkinfo

/-- The traversal as the list of (entry address, stored payload) pairs,
with fuel equal to the number of live entries. -/
def walkPayloads (s : PoolState) : List (Addr × Payload) :=
  (walkFrom s.heap s.heap.length s.pool.first).map (fun x => (x.1, x.2.data))

/-- usbi_debug_allocator_pool: the initial, empty registry. -/
def usbi_debug_allocator_pool : PoolState :=
  { heap := [], pool := { first := none, last := none } }

/-! ### Pass-through backend (usbi_default_allocator_allocate) -/

/-- The platform memory provider's state: allocated blocks, address to
block size. -/
abbrev Plat := List (Nat × Nat)

/-- total = head + (count * size) in wrapping size_t arithmetic, as
computed by usbi_default_allocator_allocate. -/
def defaultTotal (head count size : Nat) : Nat :=
  (head + count * size) % USIZE

/-- usbi_default_allocator_allocate: forwards to free/realloc/malloc with
no bookkeeping; all provenance arguments are accepted and ignored.
r is the address malloc/realloc would return (none on failure). -/
def usbi_default_allocator_allocate (p : Plat) (label file func : Nat) (line : Int)
    (stamp : Int) (mem : Option Addr) (head count size : Nat) (r : Option Addr) :
    Plat × Option Addr :=
  let total := defaultTotal head count size
  if total = 0 then
    match mem with
    | some m => (hdel p m, none)
    | none => (p, none)
  else
    match mem with
    | some m =>
        match r with
        | none => (p, none)
        | some a => (hset (hdel p m) a total, some a)
    | none =>
        match r with
        | none => (p, none)
        | some a => (hset p a total, some a)

/-! ### Logger: default console backend (logger.c)

The sequential model: the mutex only serializes concurrent callers, so
lock/unlock are no-ops here; every operation returns the new logger state
together with the list of writes it performed.  Each write is recorded as
the value of the log->stream field at the moment of the fprintf together
with a description of what was printed (the printf rendering itself is
not modelled; the claims are about which writes happen, to which stream,
in which order). -/

/-- The two C stdio streams the console backend writes to. -/
inductive CFile where
  | stdoutF : CFile
  | stderrF : CFile
deriving DecidableEq, Repr

/-- One fprintf performed by the default console backend. -/
inductive LogOut where
  | headerCols : LogOut
  | headerRule : LogOut
  | stampTid (stamp : Int) (tid : Nat) : LogOut
  | levelFunc (levelName : String) (func : Nat) : LogOut
  | body (fmtargs : Nat) : LogOut
  | newline : LogOut
deriving DecidableEq, Repr

/-- A performed write: the stream field's value at write time (NULL is
none and would be undefined behavior in C) and what was written. -/
abbrev OutEvt := Option CFile × LogOut

/-- Modelled from the spec: the numeric values of enum libusb_log_level
live in libusb.h, which is not part of the excerpt; the level_str table
in logger.c and the spec's filtering/stream rules fix the ascending order
none, error, warning, info, debug, trace, i.e. 0..5. -/
def LIBUSB_LOG_LEVEL_NONE : Int := 0

def LIBUSB_LOG_LEVEL_ERROR : Int := 1

def LIBUSB_LOG_LEVEL_WARNING : Int := 2

def LIBUSB_LOG_LEVEL_INFO : Int := 3

def LIBUSB_LOG_LEVEL_DEBUG : Int := 4

def LIBUSB_LOG_LEVEL_TRACE : Int := 5

/-- libusb_log_level_str: name of a log level, "unknown" outside the
enum range. -/
def libusb_log_level_str (level : Int) : String :=
  if level < LIBUSB_LOG_LEVEL_NONE ∨ level > LIBUSB_LOG_LEVEL_TRACE then "unknown"
  else if level = LIBUSB_LOG_LEVEL_NONE then "none"
  else if level = LIBUSB_LOG_LEVEL_ERROR then "error"
  else if level = LIBUSB_LOG_LEVEL_WARNING then "warning"
  else if level = LIBUSB_LOG_LEVEL_INFO then "info"
  else if level = LIBUSB_LOG_LEVEL_DEBUG then "debug"
  else "trace"

/-- struct usbi_default_logger_log without the mutex (sequential model).
Its members are level, header, started, stream; there is no member named
data, which is what usbi_default_logger_set_level assigns to. -/
structure usbi_default_logger_log where
  level : Int
  header : Bool
  started : Bool
  stream : Option CFile
deriving DecidableEq, Repr

/-- static default_log initializer: LIBUSB_LOG_LEVEL_NONE, header and
started false, stream NULL. -/
def default_log : usbi_default_logger_log :=
  { level := LIBUSB_LOG_LEVEL_NONE, header := false, started := false, stream := none }

/-- usbi_default_logger_init: resets the one-time header flag. -/
def usbi_default_logger_init (log : usbi_default_logger_log) : usbi_default_logger_log :=
  { log with header := false }

/-- usbi_default_logger_header: the fixed two-line column header, then
log->header = true. -/
def usbi_default_logger_header (log : usbi_default_logger_log) :
    usbi_default_logger_log × List OutEvt :=
  ({ log with header := true },
   [(log.stream, LogOut.headerCols), (log.stream, LogOut.headerRule)])

/-- usbi_default_logger_entry_begin.  tid is what usbi_get_tid() returns,
supplied by the environment.  file and line are accepted and unused, as in
the C. -/
def usbi_default_logger_entry_begin (log : usbi_default_logger_log) (level : Int)
    (file func : Nat) (line : Int) (stamp : Int) (tid : Nat) :
    usbi_default_logger_log × List OutEvt :=
  if level > log.level ∨ log.started then (log, [])
  else
    let log1 := { log with
      started := true
      stream := some (if level ≤ LIBUSB_LOG_LEVEL_WARNING then CFile.stderrF else CFile.stdoutF) }
    let pfx := libusb_log_level_str level
    let hp :=
      if level ≥ LIBUSB_LOG_LEVEL_DEBUG then
        let h1 := if log1.header = false then usbi_default_logger_header log1 else (log1, [])
        (h1.1, h1.2 ++ [(h1.1.stream, LogOut.stampTid stamp tid)])
      else (log1, [])
    (hp.1, hp.2 ++ [(hp.1.stream, LogOut.levelFunc pfx func)])

/-- usbi_default_logger_entry_extend: vfprintf to the recorded stream
unless no entry is started.  The format/args pair is opaque. -/
def usbi_default_logger_entry_extend (log : usbi_default_logger_log) (fmtargs : Nat) :
    usbi_default_logger_log × List OutEvt :=
  if ¬ log.started then (log, [])
  else (log, [(log.stream, LogOut.body fmtargs)])

/-- usbi_default_logger_entry_end: trailing newline, entry becomes idle. -/
def usbi_default_logger_entry_end (log : usbi_default_logger_log) :
    usbi_default_logger_log × List OutEvt :=
  if ¬ log.started then (log, [])
  else ({ log with started := false }, [(log.stream, LogOut.newline)])

/-- usbi_default_logger_get_level. -/
def usbi_default_logger_get_level (log : usbi_default_logger_log) : Int := log.level

/-- Modelled from the spec: the C body of usbi_default_logger_set_level is
"log->data = level", but usbi_default_logger_log has no member data (the
statement does not compile); the spec says set_level configures the
threshold that get_level returns and that begin compares the requested
level against, i.e. the level member. -/
def usbi_default_logger_set_level (log : usbi_default_logger_log) (level : Int) :
    usbi_default_logger_log :=
  { log with level := level }

/-- One call into the default console logger, for whole-trace statements. -/
inductive LogCall where
  | beginc (level : Int) (file func : Nat) (line : Int) (stamp : Int) (tid : Nat) : LogCall
  | extendc (fmtargs : Nat) : LogCall
  | endc : LogCall
  | setLevelc (level : Int) : LogCall
deriving DecidableEq, Repr

def logStep (log : usbi_default_logger_log) : LogCall → usbi_default_logger_log × List OutEvt
  | LogCall.beginc level file func line stamp tid =>
      usbi_default_logger_entry_begin log level file func line stamp tid
  | LogCall.extendc fmtargs => usbi_default_logger_entry_extend log fmtargs
  | LogCall.endc => usbi_default_logger_entry_end log
  | LogCall.setLevelc level => (usbi_default_logger_set_level log level, [])

/-- Run a sequence of logger calls, concatenating all writes in order. -/
def runLog (log : usbi_default_logger_log) : List LogCall → usbi_default_logger_log × List OutEvt
  | [] => (log, [])
  | c :: cs =>
      let r1 := logStep log c
      let r2 := runLog r1.1 cs
      (r2.1, r1.2 ++ r2.2)

/-- How many times the first column-header line was written. -/
def headerCount (out : List OutEvt) : Nat :=
  out.countP (fun e => match e.2 with | LogOut.headerCols => true | _ => false)

/-! ### Logger: buffered single-write backend (usbi_bufprintf and the
android logger's extend) -/

/-- usbi_bufprintf.  The buffer pointer/remaining pair (*out, *len) is
modelled as the characters written behind *out plus the remaining
capacity; the full rendering vsnprintf would produce for (fmt, args) is
the list s (the n < 0 output-error branch of vsnprintf is not taken in
this model).  Returns the updated pair and the truncation flag. -/
def usbi_bufprintf (out : List Char) (len : Nat) (s : List Char) : List Char × Nat × Bool :=
  if len = 0 then (out, len, true)
  else
    let n := s.length
    if n ≥ len then (out ++ s.take (len - 1), len - (len - 1), true)
    else (out ++ s.take n, len - n, false)

/-- struct usbi_android_logger_log without the mutex; buffer and ptr are
the written characters, space the remaining capacity. -/
structure usbi_android_logger_log where
  level : Int
  started : Bool
  prio : Nat
  buffer : List Char
  space : Nat
deriving DecidableEq, Repr

/-- usbi_android_logger_entry_extend: append through usbi_bufprintf
unless no entry is started or the buffer is exhausted. -/
def usbi_android_logger_entry_extend (log : usbi_android_logger_log) (s : List Char) :
    usbi_android_logger_log :=
  if ¬ log.started ∨ log.space = 0 then log
  else
    let r := usbi_bufprintf log.buffer log.space s
    { log with buffer := r.1, space := r.2.1 }

/-! ### The registry invariant from the spec

A registry is well formed when its live entries, in insertion order,
form a doubly linked chain: each entry's prev points at its predecessor
(none for the first) and next at its successor (none for the last), the
control block's first/last name the ends, and no stray entries exist. -/

/-- Address of the head of l, or the given fall-through link. -/
def headAddr (l : List (Addr × Payload)) (nx : Option Addr) : Option Addr :=
  match l with
  | [] => nx
  | x :: _ => some x.1

/-- Address of the last element of l, or the given fall-back link. -/
def lastAddr (pv : Option Addr) (l : List (Addr × Payload)) : Option Addr :=
  l.foldl (fun _ x => some x.1) pv

/-- The entries listed in l form a doubly linked segment in heap h whose
entry link into the segment is pv and whose exit link is nx. -/
def chainSeg (h : Heap) (pv : Option Addr) (l : List (Addr × Payload)) (nx : Option Addr) : Prop :=
  match l with
  | [] => True
  | (a, d) :: t =>
      hget h a = some { prev := pv, next := headAddr t nx, data := d } ∧
      chainSeg h (some a) t nx

instance chainSegDecidable (h : Heap) (pv : Option Addr) (l : List (Addr × Payload))
    (nx : Option Addr) : Decidable (chainSeg h pv l nx) :=
  match l with
  | [] => isTrue trivial
  | (a, d) :: t =>
      haveI := chainSegDecidable h (some a) t nx
      inferInstanceAs (Decidable (_ ∧ _))

/-- The debug registry state s represents exactly the live-allocation
list l, in insertion order: the addresses of l are distinct, the heap
holds no entry outside l, the entries of l are doubly linked in order,
and first/last are the two ends. -/
def goodPool (s : PoolState) (l : List (Addr × Payload)) : Prop :=
  (l.map Prod.fst).Nodup ∧
  (∀ x ∈ s.heap, x.1 ∈ l.map Prod.fst) ∧
  chainSeg s.heap none l none ∧
  s.pool.first = headAddr l none ∧
  s.pool.last = lastAddr none l

instance goodPoolDecidable (s : PoolState) (l : List (Addr × Payload)) :
    Decidable (goodPool s l) :=
  inferInstanceAs (Decidable (_ ∧ _ ∧ _ ∧ _ ∧ _))

/-- A concrete allocation request payload used in concrete evaluations. -/
def payA : Payload := { label := 11, file := 12, func := 13, line := 14, stamp := 15, head := 0, count := 1, size := 16 }

/-- A second concrete payload. -/
def payB : Payload := { label := 21, file := 22, func := 23, line := 24, stamp := 25, head := 0, count := 1, size := 8 }

/-- A third concrete payload. -/
def payC : Payload := { label := 31, file := 32, func := 33, line := 34, stamp := 35, head := 4, count := 2, size := 8 }

/-- The registry after one successful fresh debug allocation (entry
address 100, request head=0, count=1, size=16). -/
def c1s1 : PoolState :=
  (usbi_debug_allocator_allocate usbi_debug_allocator_pool payA none 0 1 16 (some 100)).1

/-- The registry after a second successful fresh debug allocation (entry
address 300). -/
def c1s2 : PoolState :=
  (usbi_debug_allocator_allocate c1s1 payB none 0 1 8 (some 300)).1

/-- A two-entry registry satisfying the spec's doubly-linked invariant
(addresses 100 and 300, correctly forward- and back-linked). -/
def c3state : PoolState :=
  { heap := [(100, { prev := none, next := some 300, data := payA }),
             (300, { prev := some 100, next := none, data := payB })],
    pool := { first := some 100, last := some 300 } }

/-- The default console logger with threshold INFO and one entry open at
level ERROR (it is Active). -/
def c7busy : usbi_default_logger_log :=
  (usbi_default_logger_entry_begin
    (usbi_default_logger_set_level default_log LIBUSB_LOG_LEVEL_INFO)
    LIBUSB_LOG_LEVEL_ERROR 0 7 0 0 0).1

/-! ### Association-list lemmas -/

theorem hget_hset {β : Type} (h : List (Nat × β)) (a : Nat) (e : β) (b : Nat) :
    hget (hset h a e) b = if b = a then some e else hget h b := by
  induction h with
  | nil =>
      by_cases hb : b = a <;> simp [hset, hget, hb]
  | cons x t ih =>
      obtain ⟨c, v⟩ := x
      by_cases hxa : a = c
      · subst hxa
        by_cases hb : b = a <;> simp [hset, hget, hb]
      · by_cases hb : b = c
        · have hba : ¬ b = a := by
            intro hc; exact hxa (by rw [← hc, hb])
          have hca : ¬ c = a := by
            intro hc; exact hxa hc.symm
          simp [hset, hget, hxa, hb, hba, hca]
        · simp [hset, hget, hxa, hb, ih]

theorem hget_hdel {β : Type} (h : List (Nat × β)) (a : Nat) (b : Nat) :
    hget (hdel h a) b = if b = a then none else hget h b := by
  induction h with
  | nil => by_cases hb : b = a <;> simp [hdel, hget, hb]
  | cons x t ih =>
      obtain ⟨c, v⟩ := x
      by_cases hxa : a = c
      · subst hxa
        by_cases hb : b = a
        · subst hb
          simpa [hdel, hget] using ih
        · simp [hdel, hget, hb, ih]
      · by_cases hb : b = c
        · have hba : ¬ b = a := by
            intro hc; exact hxa (by rw [← hc, hb])
          have hca : ¬ c = a := by
            intro hc; exact hxa hc.symm
          simp [hdel, hget, hxa, hb, hba, hca]
        · simp [hdel, hget, hxa, hb, ih]

theorem mem_hset {β : Type} (h : List (Nat × β)) (a : Nat) (e : β) (x : Nat × β) :
    x ∈ hset h a e → x = (a, e) ∨ x ∈ h := by
  induction h with
  | nil => intro hx; simp [hset] at hx; exact Or.inl hx
  | cons y t ih =>
      obtain ⟨c, v⟩ := y
      intro hx
      by_cases hca : a = c
      · subst hca
        simp [hset] at hx
        rcases hx with hx | hx
        · exact Or.inl (by simp [hx])
        · exact Or.inr (by simp [hx])
      · simp [hset, hca] at hx
        rcases hx with hx | hx
        · exact Or.inr (by simp [hx])
        · rcases ih hx with h1 | h1
          · exact Or.inl h1
          · exact Or.inr (by simp [h1])

theorem mem_hdel {β : Type} (h : List (Nat × β)) (a : Nat) (x : Nat × β) :
    x ∈ hdel h a → x ∈ h := by
  induction h with
  | nil => intro hx; simp [hdel] at hx
  | cons y t ih =>
      obtain ⟨c, v⟩ := y
      intro hx
      by_cases hca : a = c
      · subst hca
        simp [hdel] at hx
        exact List.mem_cons_of_mem _ (ih hx)
      · simp [hdel, hca] at hx
        rcases hx with hx | hx
        · simp [hx]
        · exact List.mem_cons_of_mem _ (ih hx)

theorem hget_some_mem {β : Type} (h : List (Nat × β)) (a : Nat) (e : β) :
    hget h a = some e → a ∈ h.map Prod.fst := by
  induction h with
  | nil => intro hx; simp [hget] at hx
  | cons y t ih =>
      intro hx
      by_cases hya : a = y.1
      · simp [hya]
      · simp [hget, hya] at hx
        simp [ih hx]

/-! ### Chain-segment lemmas -/

theorem headAddr_append (l1 l2 : List (Addr × Payload)) (nx : Option Addr) :
    headAddr (l1 ++ l2) nx = headAddr l1 (headAddr l2 nx) := by
  cases l1 <;> simp [headAddr]

theorem lastAddr_cons (pv : Option Addr) (x : Addr × Payload) (t : List (Addr × Payload)) :
    lastAddr pv (x :: t) = lastAddr (some x.1) t := rfl

theorem lastAddr_append (pv : Option Addr) (l1 l2 : List (Addr × Payload)) :
    lastAddr pv (l1 ++ l2) = lastAddr (lastAddr pv l1) l2 := by
  induction l1 generalizing pv with
  | nil => rfl
  | cons x t ih => simp [lastAddr_cons, ih]

theorem lastAddr_concat (pv : Option Addr) (l : List (Addr × Payload)) (x : Addr × Payload) :
    lastAddr pv (l ++ [x]) = some x.1 := by
  simp [lastAddr_append, lastAddr]

theorem chainSeg_append (h : Heap) (pv nx : Option Addr) (l1 l2 : List (Addr × Payload)) :
    chainSeg h pv (l1 ++ l2) nx ↔
      chainSeg h pv l1 (headAddr l2 nx) ∧ chainSeg h (lastAddr pv l1) l2 nx := by
  induction l1 generalizing pv with
  | nil => simp [chainSeg, lastAddr]
  | cons x t ih =>
      obtain ⟨a, d⟩ := x
      simp [chainSeg, lastAddr_cons, headAddr_append, ih, and_assoc]

theorem chainSeg_ext (h h' : Heap) (pv nx : Option Addr) (l : List (Addr × Payload))
    (hagree : ∀ x ∈ l, hget h' x.1 = hget h x.1) (hch : chainSeg h pv l nx) :
    chainSeg h' pv l nx := by
  induction l generalizing pv with
  | nil => trivial
  | cons x t ih =>
      obtain ⟨a, d⟩ := x
      obtain ⟨h1, h2⟩ := hch
      refine ⟨?_, ih (some a) (fun y hy => hagree y (List.mem_cons_of_mem _ hy)) h2⟩
      rw [hagree (a, d) (List.mem_cons_self _ _)]
      exact h1

theorem chainSeg_mem_isSome (h : Heap) (pv nx : Option Addr) (l : List (Addr × Payload))
    (hch : chainSeg h pv l nx) : ∀ x ∈ l, (hget h x.1).isSome := by
  induction l generalizing pv with
  | nil => intro x hx; simp at hx
  | cons y t ih =>
      obtain ⟨a, d⟩ := y
      obtain ⟨h1, h2⟩ := hch
      intro x hx
      rcases List.mem_cons.mp hx with hx | hx
      · rw [hx, h1]; rfl
      · exact ih (some a) h2 x hx

/-- On a chain whose exit link is none, the walk loop visits exactly the
chain's entries, in order, provided the fuel covers the length. -/
theorem walkFrom_eq (h : Heap) (l : List (Addr × Payload)) (pv : Option Addr) (fuel : Nat)
    (hch : chainSeg h pv l none) (hf : l.length ≤ fuel) :
    (walkFrom h fuel (headAddr l none)).map (fun x => (x.1, x.2.data)) = l := by
  induction l generalizing pv fuel with
  | nil =>
      cases fuel <;> simp [walkFrom, headAddr]
  | cons y t ih =>
      obtain ⟨a, d⟩ := y
      obtain ⟨h1, h2⟩ := hch
      cases fuel with
      | zero => simp at hf
      | succ f =>
          have hf' : t.length ≤ f := by simpa using hf
          simp only [headAddr, walkFrom, h1]
          simpa using ih (some a) f h2 hf'

/-- The number of live entries of a well-formed registry is bounded by
the heap size, so the heap size is enough walk fuel. -/
theorem goodPool_length_le (s : PoolState) (l : List (Addr × Payload))
    (hg : goodPool s l) : l.length ≤ s.heap.length := by
  obtain ⟨hnd, hex, hch, hf, hl⟩ := hg
  have hsub : l.map Prod.fst ⊆ s.heap.map Prod.fst := by
    intro a ha
    rcases List.mem_map.mp ha with ⟨x, hx, hxa⟩
    have := chainSeg_mem_isSome s.heap none none l hch x hx
    rcases Option.isSome_iff_exists.mp this with ⟨e, he⟩
    rw [← hxa]
    exact hget_some_mem s.heap x.1 e he
  have := (hnd.subperm hsub).length_le
  simpa using this

/-- The traversal of a well-formed registry is exactly its live list. -/
theorem goodPool_walkPayloads (s : PoolState) (l : List (Addr × Payload))
    (hg : goodPool s l) : walkPayloads s = l := by
  obtain ⟨hnd, hex, hch, hf, hl⟩ := hg
  have hlen := goodPool_length_le s l ⟨hnd, hex, hch, hf, hl⟩
  unfold walkPayloads
  rw [hf]
  exact walkFrom_eq s.heap l none s.heap.length hch hlen

theorem mem_hdel_ne {β : Type} (h : List (Nat × β)) (a : Nat) (x : Nat × β) :
    x ∈ hdel h a → x.1 ≠ a := by
  induction h with
  | nil => intro hx; simp [hdel] at hx
  | cons y t ih =>
      obtain ⟨c, v⟩ := y
      intro hx
      by_cases hca : a = c
      · subst hca
        simp [hdel] at hx
        exact ih hx
      · simp [hdel, hca] at hx
        rcases hx with hx | hx
        · rw [hx]
          exact fun hc => hca hc.symm
        · exact ih hx

theorem lastAddr_mem (l : List (Addr × Payload)) (pv : Option Addr) (p : Addr)
    (hp : lastAddr pv l = some p) : p ∈ l.map Prod.fst ∨ pv = some p := by
  induction l generalizing pv with
  | nil => exact Or.inr hp
  | cons x t ih =>
      rw [lastAddr_cons] at hp
      rcases ih (some x.1) hp with h1 | h1
      · exact Or.inl (by simp [h1])
      · simp at h1
        exact Or.inl (by simp [h1])

theorem headAddr_mem (l : List (Addr × Payload)) (n : Addr)
    (hn : headAddr l none = some n) : n ∈ l.map Prod.fst := by
  cases l with
  | nil => simp [headAddr] at hn
  | cons x t =>
      simp [headAddr] at hn
      simp [hn]

/-- Splitting a well-formed registry at one entry: the entry's stored
links are its predecessor and successor, and the two sides are chains. -/
theorem goodPool_split (s : PoolState) (l1 l2 : List (Addr × Payload)) (a : Addr) (d : Payload)
    (hg : goodPool s (l1 ++ (a, d) :: l2)) :
    hget s.heap a = some { prev := lastAddr none l1, next := headAddr l2 none, data := d } ∧
    chainSeg s.heap none l1 (some a) ∧
    chainSeg s.heap (some a) l2 none := by
  obtain ⟨hnd, hex, hch, hf, hl⟩ := hg
  rw [chainSeg_append] at hch
  obtain ⟨h1, h2⟩ := hch
  obtain ⟨h3, h4⟩ := h2
  exact ⟨h3, h1, h4⟩

/-- Pointwise effect of usbi_pool_relink at the moved entry's new
address: only the two neighbors' links (or first/last at the ends) are
written. -/
theorem relink_spec (s : PoolState) (a' : Addr) (pv nx : Option Addr) (d : Payload)
    (ha : hget s.heap a' = some { prev := pv, next := nx, data := d })
    (hpv : ∀ p, pv = some p → p ≠ a' ∧ (hget s.heap p).isSome)
    (hnx : ∀ n, nx = some n → n ≠ a' ∧ (hget s.heap n).isSome ∧ ∀ p, pv = some p → n ≠ p) :
    (∀ b, (∀ p, pv = some p → b ≠ p) → (∀ n, nx = some n → b ≠ n) →
        hget (usbi_pool_relink s a').heap b = hget s.heap b) ∧
    (∀ p, pv = some p →
        hget (usbi_pool_relink s a').heap p
          = (hget s.heap p).map (fun e0 => { e0 with next := some a' })) ∧
    (∀ n, nx = some n →
        hget (usbi_pool_relink s a').heap n
          = (hget s.heap n).map (fun e0 => { e0 with prev := some a' })) ∧
    ((usbi_pool_relink s a').pool.first = if pv = none then some a' else s.pool.first) ∧
    ((usbi_pool_relink s a').pool.last = if nx = none then some a' else s.pool.last) ∧
    (∀ x ∈ (usbi_pool_relink s a').heap, x.1 ∈ s.heap.map Prod.fst) := by
  have hgetE : getE s.heap a' = { prev := pv, next := nx, data := d } := by
    simp [getE, ha]
  cases pv with
  | none =>
      cases nx with
      | none =>
          have hrel : usbi_pool_relink s a' =
              { s with pool := { first := some a', last := some a' } } := by
            simp [usbi_pool_relink, hgetE]
          rw [hrel]
          refine ⟨fun b _ _ => rfl, fun p hp => by simp at hp, fun n hn => by simp at hn, ?_, ?_, ?_⟩
          · simp
          · simp
          · exact fun x hx => List.mem_map.mpr ⟨x, hx, rfl⟩
      | some n =>
          obtain ⟨hna, hns, -⟩ := hnx n rfl
          rcases Option.isSome_iff_exists.mp hns with ⟨en, hen⟩
          have hgn : getE s.heap n = en := by simp [getE, hen]
          have hrel : usbi_pool_relink s a' =
              { heap := hset s.heap n { en with prev := some a' },
                pool := { first := some a', last := s.pool.last } } := by
            simp [usbi_pool_relink, hgetE, hgn]
          rw [hrel]
          refine ⟨?_, fun p hp => by simp at hp, ?_, by simp, by simp, ?_⟩
          · intro b hbp hbn
            have hbn' := hbn n rfl
            simp [hget_hset, hbn']
          · intro n0 hn0
            injection hn0 with hn1
            subst hn1
            simp [hget_hset, hen]
          · intro x hx
            rcases mem_hset _ _ _ _ hx with hx1 | hx1
            · rw [hx1]
              exact hget_some_mem s.heap n en hen
            · exact List.mem_map.mpr ⟨x, hx1, rfl⟩
  | some p =>
      obtain ⟨hpa, hps⟩ := hpv p rfl
      rcases Option.isSome_iff_exists.mp hps with ⟨ep, hep⟩
      have hgp : getE s.heap p = ep := by simp [getE, hep]
      have hap : ¬ a' = p := fun hc => hpa hc.symm
      have hs1 : hget (hset s.heap p { ep with next := some a' }) a' = some { prev := some p, next := nx, data := d } := by
        rw [hget_hset]
        simp [hap, ha]
      have hgs1 : getE (hset s.heap p { ep with next := some a' }) a'
          = { prev := some p, next := nx, data := d } := by
        simp [getE, hs1]
      cases nx with
      | none =>
          have hrel : usbi_pool_relink s a' =
              { heap := hset s.heap p { ep with next := some a' },
                pool := { first := s.pool.first, last := some a' } } := by
            simp [usbi_pool_relink, hgetE, hgp, hgs1]
          rw [hrel]
          refine ⟨?_, ?_, fun n hn => by simp at hn, by simp, by simp, ?_⟩
          · intro b hbp hbn
            have hbp' := hbp p rfl
            simp [hget_hset, hbp']
          · intro p0 hp0
            injection hp0 with hp1
            subst hp1
            simp [hget_hset, hep]
          · intro x hx
            rcases mem_hset _ _ _ _ hx with hx1 | hx1
            · rw [hx1]
              exact hget_some_mem s.heap p ep hep
            · exact List.mem_map.mpr ⟨x, hx1, rfl⟩
      | some n =>
          obtain ⟨hna, hns, hnp'⟩ := hnx n rfl
          have hnp : n ≠ p := hnp' p rfl
          rcases Option.isSome_iff_exists.mp hns with ⟨en, hen⟩
          have hen1 : hget (hset s.heap p { ep with next := some a' }) n = some en := by
            rw [hget_hset]
            simp [hnp, hen]
          have hgn1 : getE (hset s.heap p { ep with next := some a' }) n = en := by
            simp [getE, hen1]
          have hrel : usbi_pool_relink s a' =
              { heap := hset (hset s.heap p { ep with next := some a' }) n { en with prev := some a' },
                pool := s.pool } := by
            simp [usbi_pool_relink, hgetE, hgp, hgs1, hgn1]
          rw [hrel]
          refine ⟨?_, ?_, ?_, by simp, by simp, ?_⟩
          · intro b hbp hbn
            have hbp' := hbp p rfl
            have hbn' := hbn n rfl
            simp [hget_hset, hbp', hbn']
          · intro p0 hp0
            injection hp0 with hp1
            subst hp1
            have hnp2 : ¬ p = n := fun hc => hnp hc.symm
            simp [hget_hset, hnp2, hep]
          · intro n0 hn0
            injection hn0 with hn1
            subst hn1
            simp [hget_hset, hen]
          · intro x hx
            rcases mem_hset _ _ _ _ hx with hx1 | hx1
            · rw [hx1]
              exact hget_some_mem s.heap n en hen
            · rcases mem_hset _ _ _ _ hx1 with hx2 | hx2
              · rw [hx2]
                exact hget_some_mem s.heap p ep hep
              · exact List.mem_map.mpr ⟨x, hx2, rfl⟩

theorem headAddr_of_ne_nil (l : List (Addr × Payload)) (nx nx' : Option Addr) (h : l ≠ []) :
    headAddr l nx = headAddr l nx' := by
  cases l with
  | nil => exact absurd rfl h
  | cons x t => rfl

/-- Claim C3: on a well-formed registry, resizing a tracked block to a
new (fresh) address preserves the entry's position in traversal order
(the registry stays well formed over the same list with only the moved
address replaced, so it is never reordered), modifies only the links of
its two neighbors (the predecessor's next and the successor's prev, or
the registry's first/last fields when the entry is at an end), changes no
other entry, and changes no field of the moved entry itself other than
its address. -/
theorem claim_C3_relink_preserves_position (s s2 : PoolState) (ret : Option Addr)
    (l1 l2 : List (Addr × Payload)) (a a' : Addr) (d dp : Payload)
    (head count size : Nat)
    (hne : debugTotal head count size ≠ 0)
    (hg : goodPool s (l1 ++ (a, d) :: l2))
    (hfresh : a' ∉ (l1 ++ (a, d) :: l2).map Prod.fst)
    (hrun : usbi_debug_allocator_allocate s dp (some (USBI_ENTRY_TO_MEM a)) head count size
      (some a') = (s2, ret)) :
    ret = some (USBI_ENTRY_TO_MEM a') ∧
    goodPool s2 (l1 ++ (a', d) :: l2) ∧
    hget s2.heap a' = hget s.heap a ∧
    hget s2.heap a = none ∧
    (∀ b, b ≠ a → b ≠ a' → (∀ p, lastAddr none l1 = some p → b ≠ p) →
        (∀ n, headAddr l2 none = some n → b ≠ n) → hget s2.heap b = hget s.heap b) ∧
    (∀ p, lastAddr none l1 = some p →
        hget s2.heap p = (hget s.heap p).map (fun e0 => { e0 with next := some a' })) ∧
    (∀ n, headAddr l2 none = some n →
        hget s2.heap n = (hget s.heap n).map (fun e0 => { e0 with prev := some a' })) ∧
    s2.pool.first = (if lastAddr none l1 = none then some a' else s.pool.first) ∧
    s2.pool.last = (if headAddr l2 none = none then some a' else s.pool.last) := by
  obtain ⟨hga, hch1, hch2⟩ := goodPool_split s l1 l2 a d hg
  obtain ⟨hnd, hex, hch, hf, hl⟩ := hg
  have hnd' : (l1.map Prod.fst ++ a :: l2.map Prod.fst).Nodup := by simpa using hnd
  rcases List.nodup_append.mp hnd' with ⟨hnd1, hnd2c, hdisj⟩
  rcases List.nodup_cons.mp hnd2c with ⟨hal2, hnd2⟩
  have hal1 : a ∉ l1.map Prod.fst := fun hc => hdisj hc (List.mem_cons_self _ _)
  have hfresh' : a' ∉ l1.map Prod.fst ∧ ¬ a' = a ∧ a' ∉ l2.map Prod.fst := by
    simpa using hfresh
  obtain ⟨hfa1, hfaa, hfa2⟩ := hfresh'
  have hlive1 : ∀ p ∈ l1.map Prod.fst, (hget s.heap p).isSome := by
    intro p hp
    rcases List.mem_map.mp hp with ⟨x, hx, hxp⟩
    have := chainSeg_mem_isSome s.heap none (some a) l1 hch1 x hx
    rwa [hxp] at this
  have hlive2 : ∀ n ∈ l2.map Prod.fst, (hget s.heap n).isSome := by
    intro n hn
    rcases List.mem_map.mp hn with ⟨x, hx, hxn⟩
    have := chainSeg_mem_isSome s.heap (some a) none l2 hch2 x hx
    rwa [hxn] at this
  have hpmem : ∀ p, lastAddr none l1 = some p → p ∈ l1.map Prod.fst := by
    intro p hp
    rcases lastAddr_mem l1 none p hp with h | h
    · exact h
    · simp at h
  have hnmem : ∀ n, headAddr l2 none = some n → n ∈ l2.map Prod.fst :=
    fun n hn => headAddr_mem l2 n hn
  have hm : USBI_MEM_TO_ENTRY (USBI_ENTRY_TO_MEM a) = a := by
    simp [USBI_MEM_TO_ENTRY, USBI_ENTRY_TO_MEM]
  have hun : usbi_debug_allocator_allocate s dp (some (USBI_ENTRY_TO_MEM a)) head count size
      (some a')
      = (usbi_pool_relink { s with heap := hset (hdel s.heap a) a' (getE s.heap a) } a',
         some (USBI_ENTRY_TO_MEM a')) := by
    simp [usbi_debug_allocator_allocate, hne, hm, hfaa]
  rw [hun] at hrun
  injection hrun with hrs hrr
  subst hrs
  subst hrr
  have hh1 : ∀ b, hget (hset (hdel s.heap a) a' (getE s.heap a)) b
      = if b = a' then some { prev := lastAddr none l1, next := headAddr l2 none, data := d }
        else if b = a then none else hget s.heap b := by
    intro b
    have hge : getE s.heap a
        = { prev := lastAddr none l1, next := headAddr l2 none, data := d } := by
      simp [getE, hga]
    rw [hget_hset, hget_hdel, hge]
  have hras : hget ({ s with heap := hset (hdel s.heap a) a' (getE s.heap a) } : PoolState).heap a'
      = some { prev := lastAddr none l1, next := headAddr l2 none, data := d } := by
    rw [hh1]
    simp
  have hpv : ∀ p, lastAddr none l1 = some p → p ≠ a' ∧
      (hget ({ s with heap := hset (hdel s.heap a) a' (getE s.heap a) } : PoolState).heap p).isSome := by
    intro p hp
    have hp1 := hpmem p hp
    have hpa' : ¬ p = a' := fun hc => hfa1 (hc ▸ hp1)
    have hpa : ¬ p = a := fun hc => hal1 (hc ▸ hp1)
    refine ⟨hpa', ?_⟩
    rw [hh1]
    simp only [hpa', hpa, if_false]
    exact hlive1 p hp1
  have hnx : ∀ n, headAddr l2 none = some n → n ≠ a' ∧
      (hget ({ s with heap := hset (hdel s.heap a) a' (getE s.heap a) } : PoolState).heap n).isSome ∧
      ∀ p, lastAddr none l1 = some p → n ≠ p := by
    intro n hn
    have hn1 := hnmem n hn
    have hna' : ¬ n = a' := fun hc => hfa2 (hc ▸ hn1)
    have hna : ¬ n = a := fun hc => hal2 (hc ▸ hn1)
    refine ⟨hna', ?_, ?_⟩
    · rw [hh1]
      simp only [hna', hna, if_false]
      exact hlive2 n hn1
    · intro p hp
      have hp1 := hpmem p hp
      exact fun hc => hdisj (hc ▸ hp1) (List.mem_cons_of_mem _ hn1)
  obtain ⟨hframe, hupP, hupN, hfirst, hlast, hmemk⟩ :=
    relink_spec { s with heap := hset (hdel s.heap a) a' (getE s.heap a) } a'
      (lastAddr none l1) (headAddr l2 none) d hras hpv hnx
  have hsame : ∀ b, b ≠ a → b ≠ a' → (∀ p, lastAddr none l1 = some p → b ≠ p) →
      (∀ n, headAddr l2 none = some n → b ≠ n) →
      hget (usbi_pool_relink { s with heap := hset (hdel s.heap a) a' (getE s.heap a) } a').heap b
        = hget s.heap b := by
    intro b hba hba' hbp hbn
    rw [hframe b hbp hbn, hh1]
    simp [hba, hba']
  have hmid : hget (usbi_pool_relink { s with heap := hset (hdel s.heap a) a' (getE s.heap a) } a').heap a'
      = some { prev := lastAddr none l1, next := headAddr l2 none, data := d } := by
    rw [hframe a' (fun p hp hc => (hpv p hp).1 hc.symm) (fun n hn hc => (hnx n hn).1 hc.symm)]
    exact hras
  have hdead : hget (usbi_pool_relink { s with heap := hset (hdel s.heap a) a' (getE s.heap a) } a').heap a
      = none := by
    have hap : ∀ p, lastAddr none l1 = some p → a ≠ p := by
      intro p hp hc
      exact hal1 (hc ▸ hpmem p hp)
    have han : ∀ n, headAddr l2 none = some n → a ≠ n := by
      intro n hn hc
      exact hal2 (hc ▸ hnmem n hn)
    have haa' : ¬ a = a' := fun hc => hfaa hc.symm
    rw [hframe a hap han, hh1]
    simp [haa']
  have hupP' : ∀ p, lastAddr none l1 = some p →
      hget (usbi_pool_relink { s with heap := hset (hdel s.heap a) a' (getE s.heap a) } a').heap p
        = (hget s.heap p).map (fun e0 => { e0 with next := some a' }) := by
    intro p hp
    have hp1 := hpmem p hp
    have hpa' : ¬ p = a' := fun hc => hfa1 (hc ▸ hp1)
    have hpa : ¬ p = a := fun hc => hal1 (hc ▸ hp1)
    rw [hupP p hp, hh1]
    simp [hpa, hpa']
  have hupN' : ∀ n, headAddr l2 none = some n →
      hget (usbi_pool_relink { s with heap := hset (hdel s.heap a) a' (getE s.heap a) } a').heap n
        = (hget s.heap n).map (fun e0 => { e0 with prev := some a' }) := by
    intro n hn
    have hn1 := hnmem n hn
    have hna' : ¬ n = a' := fun hc => hfa2 (hc ▸ hn1)
    have hna : ¬ n = a := fun hc => hal2 (hc ▸ hn1)
    rw [hupN n hn, hh1]
    simp [hna, hna']
  refine ⟨rfl, ?_, ?_, hdead, hsame, hupP', hupN', ?_, ?_⟩
  · -- goodPool of the new list
    refine ⟨?_, ?_, ?_, ?_, ?_⟩
    · -- nodup
      simp only [List.map_append, List.map_cons]
      rw [List.nodup_append]
      refine ⟨hnd1, List.nodup_cons.mpr ⟨hfa2, hnd2⟩, ?_⟩
      intro x hx1 hx2
      rcases List.mem_cons.mp hx2 with h | h
      · exact hfa1 (h ▸ hx1)
      · exact hdisj hx1 (List.mem_cons_of_mem _ h)
    · -- exactness
      intro x hx
      have hk := hmemk x hx
      rcases List.mem_map.mp hk with ⟨y, hy, hyx⟩
      rcases mem_hset _ _ _ _ hy with hy1 | hy1
      · rw [← hyx, hy1]
        simp
      · have hyne := mem_hdel_ne s.heap a y hy1
        have hyin := mem_hdel s.heap a y hy1
        have := hex y hyin
        simp only [List.map_append, List.map_cons] at this ⊢
        rcases List.mem_append.mp this with h | h
        · rw [← hyx]
          exact List.mem_append.mpr (Or.inl h)
        · rcases List.mem_cons.mp h with h | h
          · exact absurd h hyne
          · rw [← hyx]
            exact List.mem_append.mpr (Or.inr (List.mem_cons_of_mem _ h))
    · -- chain
      rw [chainSeg_append]
      constructor
      · show chainSeg _ none l1 (some a')
        rcases List.eq_nil_or_concat l1 with hl1 | ⟨l1', x, hl1⟩
        · subst hl1
          trivial
        · obtain ⟨p0, dp0⟩ := x
          subst hl1
          simp only [List.concat_eq_append] at *
          have hpva : lastAddr none (l1' ++ [(p0, dp0)]) = some p0 := lastAddr_concat _ _ _
          rw [chainSeg_append] at hch1
          obtain ⟨hc1', hc1p⟩ := hch1
          obtain ⟨hgp0, -⟩ := hc1p
          have hp0l1 : p0 ∈ (l1' ++ [(p0, dp0)]).map Prod.fst := by simp
          have hp0nl1' : p0 ∉ l1'.map Prod.fst := by
            have := hnd1
            simp only [List.map_append, List.map_cons, List.map_nil] at this
            rcases List.nodup_append.mp this with ⟨-, -, hdj⟩
            intro hc
            exact hdj hc (by simp)
          rw [chainSeg_append]
          constructor
          · show chainSeg _ none l1' (some p0)
            apply chainSeg_ext s.heap _ none (some p0) l1' ?_ ?_
            · intro x hx
              have hxm : x.1 ∈ (l1' ++ [(p0, dp0)]).map Prod.fst := by
                simp only [List.map_append, List.map_cons, List.map_nil]
                exact List.mem_append.mpr (Or.inl (List.mem_map.mpr ⟨x, hx, rfl⟩))
              have hxa : x.1 ≠ a := fun hc => hal1 (hc ▸ hxm)
              have hxa' : x.1 ≠ a' := fun hc => hfa1 (hc ▸ hxm)
              have hxp : ∀ p, lastAddr none (l1' ++ [(p0, dp0)]) = some p → x.1 ≠ p := by
                intro p hp
                rw [hpva] at hp
                injection hp with hp2
                subst hp2
                intro hc
                exact hp0nl1' (hc ▸ List.mem_map.mpr ⟨x, hx, rfl⟩)
              have hxn : ∀ n, headAddr l2 none = some n → x.1 ≠ n := by
                intro n hn hc
                exact hdisj (hc ▸ hxm) (List.mem_cons_of_mem _ (hnmem n hn))
              exact hsame x.1 hxa hxa' hxp hxn
            · exact hc1'
          · refine ⟨?_, trivial⟩
            rw [hupP' p0 hpva, hgp0]
            rfl
      · refine ⟨hmid, ?_⟩
        cases l2 with
        | nil => trivial
        | cons y l2' =>
            obtain ⟨n0, dn0⟩ := y
            have hnxa : headAddr ((n0, dn0) :: l2') none = some n0 := rfl
            obtain ⟨hgn0, hc2'⟩ := hch2
            have hn0l2 : n0 ∈ ((n0, dn0) :: l2').map Prod.fst := by simp
            have hn0nl2' : n0 ∉ l2'.map Prod.fst := by
              have := hnd2
              simp only [List.map_cons] at this
              exact (List.nodup_cons.mp this).1
            refine ⟨?_, ?_⟩
            · rw [hupN' n0 hnxa, hgn0]
              rfl
            · apply chainSeg_ext s.heap _ (some n0) none l2' ?_ hc2'
              intro x hx
              have hxm : x.1 ∈ ((n0, dn0) :: l2').map Prod.fst := by
                simp only [List.map_cons]
                exact List.mem_cons_of_mem _ (List.mem_map.mpr ⟨x, hx, rfl⟩)
              have hxa : x.1 ≠ a := fun hc => hal2 (hc ▸ hxm)
              have hxa' : x.1 ≠ a' := fun hc => hfa2 (hc ▸ hxm)
              have hxp : ∀ p, lastAddr none l1 = some p → x.1 ≠ p := by
                intro p hp hc
                exact hdisj (hc ▸ hpmem p hp) (List.mem_cons_of_mem _ hxm)
              have hxn : ∀ n, headAddr ((n0, dn0) :: l2') none = some n → x.1 ≠ n := by
                intro n hn
                rw [hnxa] at hn
                injection hn with hn2
                subst hn2
                intro hc
                exact hn0nl2' (hc ▸ List.mem_map.mpr ⟨x, hx, rfl⟩)
              exact hsame x.1 hxa hxa' hxp hxn
    · -- first
      rcases List.eq_nil_or_concat l1 with hl1 | ⟨l1', x, hl1⟩
      · subst hl1
        rw [hfirst]
        simp [lastAddr, headAddr]
      · subst hl1
        simp only [List.concat_eq_append] at *
        rw [hfirst]
        have hpva : lastAddr none (l1' ++ [x]) = some x.1 := lastAddr_concat _ _ _
        rw [hpva]
        simp only [if_false, reduceCtorEq]
        rw [hf]
        simp only [headAddr_append]
        simp [headAddr]
    · -- last
      cases l2 with
      | nil =>
          rw [hlast]
          simp only [headAddr]
          rw [lastAddr_append]
          rfl
      | cons y l2' =>
          rw [hlast]
          have hnxa : headAddr (y :: l2') none = some y.1 := rfl
          rw [hnxa]
          simp only [if_false, reduceCtorEq]
          rw [hl]
          rw [lastAddr_append, lastAddr_append]
          rw [lastAddr_cons, lastAddr_cons, lastAddr_cons, lastAddr_cons]
  · exact hmid.trans hga.symm
  · exact hfirst
  · exact hlast

/-- Claim C1: the claim states that after each operation the walk
traversal visits exactly the currently-live allocations in insertion
order; the code violates it, because usbi_pool_link never updates the old
tail's next pointer.  After two successful fresh allocations (entries at
100 and 300) both blocks are live and last points at 300, but the
traversal from first visits only the first entry (300 is live yet never
visited), so the walk does not visit the set of live allocations. -/
theorem claim_C1_walk_misses_live_entry :
    (hget c1s2.heap 300).isSome = true ∧
    (hget c1s2.heap 300) = some { prev := some 100, next := none, data := payB } ∧
    c1s2.pool.first = some 100 ∧
    c1s2.pool.last = some 300 ∧
    walkPayloads c1s2 = [(100, payA)] ∧
    (300 : Addr) ∉ (walkPayloads c1s2).map Prod.fst := by decide

/-- Claim C2: the claim states that a request with head + count*size = 0
on an existing block is a release and that allocate-then-release restores
the registry; the code violates it, because the debug backend adds
sizeof(usbi_pool_entry) = 80 into total before testing it against zero.
The free request (head=0, count=0, size=0) on the single live block of
c1s1 computes total = 80, takes the resize path (realloc in place
succeeding at the same address), returns the old user pointer instead of
none, and leaves the registry entry linked, so the registry is not
restored to its pre-allocation (empty) state. -/
theorem claim_C2_free_request_not_released :
    debugTotal 0 0 0 = 80 ∧
    usbi_debug_allocator_allocate c1s1 payB (some (USBI_ENTRY_TO_MEM 100)) 0 0 0 (some 100)
      = (c1s1, some (USBI_ENTRY_TO_MEM 100)) ∧
    (hget c1s1.heap 100).isSome = true ∧
    c1s1 ≠ usbi_debug_allocator_pool := by decide

/-- Witness for claim C3: a concrete well-formed two-entry registry in
which the entry at address 300 is resized and realloc moves it to the
fresh address 500; the registry stays well formed with the entry in the
same (second) position. -/
theorem claim_C3_relink_preserves_position_witness :
    debugTotal 0 2 8 ≠ 0 ∧
    goodPool c3state ([(100, payA)] ++ (300, payB) :: []) ∧
    (500 : Addr) ∉ (([(100, payA)] ++ (300, payB) :: []).map Prod.fst) ∧
    goodPool (usbi_debug_allocator_allocate c3state payC (some (USBI_ENTRY_TO_MEM 300))
        0 2 8 (some 500)).1 ([(100, payA)] ++ (500, payB) :: []) := by
  refine ⟨by decide, by decide, by decide, ?_⟩
  have h := claim_C3_relink_preserves_position c3state
    (usbi_debug_allocator_allocate c3state payC (some (USBI_ENTRY_TO_MEM 300)) 0 2 8 (some 500)).1
    (usbi_debug_allocator_allocate c3state payC (some (USBI_ENTRY_TO_MEM 300)) 0 2 8 (some 500)).2
    [(100, payA)] [] 300 500 payB payC 0 2 8 (by decide) (by decide) (by decide) rfl
  exact h.2.1

/-- Claim C4: a resize request (total positive, block present) whose
underlying realloc fails returns none and is atomic: the state, and with
it the original block's content, address and registry entry, is exactly
unchanged and no registry mutation occurs. -/
theorem claim_C4_resize_failure_atomic (s : PoolState) (d : Payload) (m : Addr)
    (head count size : Nat) (hne : debugTotal head count size ≠ 0) :
    usbi_debug_allocator_allocate s d (some m) head count size none = (s, none) := by
  simp [usbi_debug_allocator_allocate, hne]

/-- Witness for claim C4 at a concrete registry and request. -/
theorem claim_C4_resize_failure_atomic_witness :
    debugTotal 0 2 8 ≠ 0 ∧
    usbi_debug_allocator_allocate c3state payC (some (USBI_ENTRY_TO_MEM 300)) 0 2 8 none
      = (c3state, none) :=
  ⟨by decide, claim_C4_resize_failure_atomic c3state payC (USBI_ENTRY_TO_MEM 300) 0 2 8 (by decide)⟩

/-- Claim C5: the pass-through backend's allocate implements exactly the
four-case contract with no bookkeeping, and ignores every provenance
argument: zero total with a block releases it (the block is gone, the
rest of the platform heap untouched) and returns none; zero total with no
block is a no-op returning none; positive total with no block allocates a
fresh region of total bytes or returns none on failure with no state
change; positive total with a block resizes-or-moves it or returns none
on failure leaving everything untouched. -/
theorem claim_C5_default_allocator_contract (p : Plat)
    (label file func : Nat) (line : Int) (stamp : Int)
    (label2 file2 func2 : Nat) (line2 : Int) (stamp2 : Int)
    (mem : Option Addr) (head count size : Nat) (r : Option Addr) :
    (usbi_default_allocator_allocate p label file func line stamp mem head count size r
      = usbi_default_allocator_allocate p label2 file2 func2 line2 stamp2 mem head count size r) ∧
    (∀ m, defaultTotal head count size = 0 → mem = some m →
      usbi_default_allocator_allocate p label file func line stamp mem head count size r
          = (hdel p m, none) ∧
        hget (hdel p m) m = none ∧
        (∀ b, b ≠ m → hget (hdel p m) b = hget p b)) ∧
    (defaultTotal head count size = 0 → mem = none →
      usbi_default_allocator_allocate p label file func line stamp mem head count size r
        = (p, none)) ∧
    (defaultTotal head count size ≠ 0 → mem = none → r = none →
      usbi_default_allocator_allocate p label file func line stamp mem head count size r
        = (p, none)) ∧
    (∀ a, defaultTotal head count size ≠ 0 → mem = none → r = some a →
      usbi_default_allocator_allocate p label file func line stamp mem head count size r
          = (hset p a (defaultTotal head count size), some a) ∧
        hget (hset p a (defaultTotal head count size)) a = some (defaultTotal head count size) ∧
        (∀ b, b ≠ a → hget (hset p a (defaultTotal head count size)) b = hget p b)) ∧
    (∀ m, defaultTotal head count size ≠ 0 → mem = some m → r = none →
      usbi_default_allocator_allocate p label file func line stamp mem head count size r
        = (p, none)) ∧
    (∀ m a, defaultTotal head count size ≠ 0 → mem = some m → r = some a →
      usbi_default_allocator_allocate p label file func line stamp mem head count size r
          = (hset (hdel p m) a (defaultTotal head count size), some a) ∧
        hget (hset (hdel p m) a (defaultTotal head count size)) a
          = some (defaultTotal head count size)) := by
  refine ⟨?_, ?_, ?_, ?_, ?_, ?_, ?_⟩
  · cases mem <;> cases r <;> simp [usbi_default_allocator_allocate]
  · intro m h0 hm
    subst hm
    refine ⟨by simp [usbi_default_allocator_allocate, h0], ?_, ?_⟩
    · rw [hget_hdel]
      simp
    · intro b hb
      rw [hget_hdel]
      simp [hb]
  · intro h0 hm
    subst hm
    simp [usbi_default_allocator_allocate, h0]
  · intro h0 hm hr
    subst hm
    subst hr
    simp [usbi_default_allocator_allocate, h0]
  · intro a h0 hm hr
    subst hm
    subst hr
    refine ⟨by simp [usbi_default_allocator_allocate, h0], ?_, ?_⟩
    · rw [hget_hset]
      simp
    · intro b hb
      rw [hget_hset]
      simp [hb]
  · intro m h0 hm hr
    subst hm
    subst hr
    simp [usbi_default_allocator_allocate, h0]
  · intro m a h0 hm hr
    subst hm
    subst hr
    refine ⟨by simp [usbi_default_allocator_allocate, h0], ?_⟩
    rw [hget_hset]
    simp

/-- Witness for claim C5: concrete release and fresh-allocation requests
through the pass-through backend. -/
theorem claim_C5_default_allocator_contract_witness :
    (usbi_default_allocator_allocate [(100, 7)] 1 2 3 4 5 (some 100) 0 0 0 none
      = (hdel [(100, 7)] 100, none)) ∧
    (usbi_default_allocator_allocate [(100, 7)] 1 2 3 4 5 none 0 3 8 (some 200)
      = (hset [(100, 7)] 200 24, some 200)) := by
  constructor
  · exact ((claim_C5_default_allocator_contract [(100, 7)] 1 2 3 4 5 9 8 7 6 5
      (some 100) 0 0 0 none).2.1 100 (by decide) rfl).1
  · exact ((claim_C5_default_allocator_contract [(100, 7)] 1 2 3 4 5 9 8 7 6 5
      none 0 3 8 (some 200)).2.2.2.2.1 200 (by decide) rfl rfl).1

/-- Claim C10: the request total is computed in wrapping size_t
arithmetic.  With head = 0, count = 2^32, size = 2^32 the pass-through
total wraps to 0, so with an existing block the backend frees the block
and returns none instead of attempting the oversized resize; the debug
backend adds sizeof(usbi_pool_entry) into the same wrapping sum before
the zero test, so a triple whose wrapped sum plus the header size is a
multiple of 2^64 takes the release path. -/
theorem claim_C10_wrapping_total :
    defaultTotal 0 (2 ^ 32) (2 ^ 32) = 0 ∧
    usbi_default_allocator_allocate [(100, 7)] 1 2 3 4 5 (some 100) 0 (2 ^ 32) (2 ^ 32) (some 999)
      = ([], none) ∧
    (∀ head count size : Nat, debugTotal head count size = (head + count * size + entrySize) % USIZE) ∧
    debugTotal (USIZE - entrySize) (2 ^ 32) (2 ^ 32) = 0 ∧
    usbi_debug_allocator_allocate c3state payC (some (USBI_ENTRY_TO_MEM 300))
        (USIZE - entrySize) (2 ^ 32) (2 ^ 32) (some 999)
      = ({ heap := [(100, { prev := none, next := none, data := payA })],
           pool := { first := some 100, last := some 100 } }, none) := by
  refine ⟨by decide, by decide, fun head count size => rfl, by decide, by decide⟩

/-- One logger call can only write the column-header line while the
header flag is still clear, writes it at most once, and sets the flag
when it does; the flag is never cleared. -/
theorem logStep_headerCount (log : usbi_default_logger_log) (c : LogCall) :
    headerCount (logStep log c).2 + (if (logStep log c).1.header then 0 else 1)
      ≤ (if log.header then 0 else 1) := by
  cases c with
  | beginc level file func line stamp tid =>
      by_cases hg : level > log.level ∨ log.started = true
      · simp [logStep, usbi_default_logger_entry_begin, hg, headerCount]
      · by_cases hv : level ≥ LIBUSB_LOG_LEVEL_DEBUG
        · by_cases hh : log.header = false
          · simp [logStep, usbi_default_logger_entry_begin, hg, hv, hh,
              usbi_default_logger_header, headerCount]
          · simp only [Bool.not_eq_false] at hh
            simp [logStep, usbi_default_logger_entry_begin, hg, hv, hh,
              usbi_default_logger_header, headerCount]
        · simp [logStep, usbi_default_logger_entry_begin, hg, hv, headerCount]
  | extendc fmtargs =>
      by_cases hs : log.started = true <;>
        simp [logStep, usbi_default_logger_entry_extend, hs, headerCount]
  | endc =>
      by_cases hs : log.started = true <;>
        simp [logStep, usbi_default_logger_entry_end, hs, headerCount]
  | setLevelc level =>
      simp [logStep, usbi_default_logger_set_level, headerCount]

/-- Across any call sequence the column header is written at most once
while the flag starts clear, and never once it is set. -/
theorem runLog_headerCount (cs : List LogCall) : ∀ log : usbi_default_logger_log,
    headerCount (runLog log cs).2 + (if (runLog log cs).1.header then 0 else 1)
      ≤ (if log.header then 0 else 1) := by
  induction cs with
  | nil => intro log; simp [runLog, headerCount]
  | cons c cs ih =>
      intro log
      have h1 := logStep_headerCount log c
      have h2 := ih (logStep log c).1
      simp only [runLog, headerCount, List.countP_append] at h1 h2 ⊢
      omega

/-- Claim C6: set_level configures the threshold that get_level returns
and that begin compares against; set_level followed by get_level returns
exactly the level that was set, and nothing else of the logger state
changes.  (set_level here is modelled from the spec because the C
statement writes a member the struct does not have; see the definition's
doc string.) -/
theorem claim_C6_set_then_get_level (log : usbi_default_logger_log) (level : Int) :
    usbi_default_logger_get_level (usbi_default_logger_set_level log level) = level ∧
    (usbi_default_logger_set_level log level).level = level ∧
    (usbi_default_logger_set_level log level).started = log.started ∧
    (usbi_default_logger_set_level log level).header = log.header ∧
    (usbi_default_logger_set_level log level).stream = log.stream := by
  simp [usbi_default_logger_get_level, usbi_default_logger_set_level]

/-- Counterexample to claim C7: with threshold INFO and an entry already
open (c7busy is Active), a second begin at level ERROR is suppressed
(state unchanged, no output) — but the subsequent extend and end calls of
that suppressed entry are not no-ops: extend writes to the active stream
and end closes the other entry, because started belongs to the logger,
not to an entry. -/
theorem claim_C7_counterexample :
    c7busy.started = true ∧
    usbi_default_logger_entry_begin c7busy LIBUSB_LOG_LEVEL_ERROR 0 7 0 0 0 = (c7busy, []) ∧
    (usbi_default_logger_entry_extend c7busy 42).2 = [(some CFile.stderrF, LogOut.body 42)] ∧
    (usbi_default_logger_entry_end c7busy).1.started = false ∧
    (usbi_default_logger_entry_end c7busy).2 = [(some CFile.stderrF, LogOut.newline)] := by
  decide

/-- Claim C7 (amended): every suppressed begin — level above threshold or
logger already Active — makes no state change, produces no output and
leaves the configured threshold untouched; and when the logger was idle
and the entry was suppressed by the level filter, the subsequent extend
and end calls of that entry are safe no-ops.  (When suppression is due to
the logger being already Active, extend/end act on the currently active
entry instead — see the counterexample.) -/
theorem claim_C7_suppressed_entry_noops (log : usbi_default_logger_log) (level : Int)
    (file func : Nat) (line : Int) (stamp : Int) (tid : Nat) :
    (level > log.level ∨ log.started = true →
      usbi_default_logger_entry_begin log level file func line stamp tid = (log, []) ∧
      usbi_default_logger_get_level
          (usbi_default_logger_entry_begin log level file func line stamp tid).1 = log.level) ∧
    (level > log.level → log.started = false →
      ∀ fmtargs,
        usbi_default_logger_entry_extend
            (usbi_default_logger_entry_begin log level file func line stamp tid).1 fmtargs
          = ((usbi_default_logger_entry_begin log level file func line stamp tid).1, []) ∧
        usbi_default_logger_entry_end
            (usbi_default_logger_entry_begin log level file func line stamp tid).1
          = ((usbi_default_logger_entry_begin log level file func line stamp tid).1, [])) := by
  constructor
  · intro hg
    have hb : usbi_default_logger_entry_begin log level file func line stamp tid = (log, []) := by
      simp [usbi_default_logger_entry_begin, hg]
    exact ⟨hb, by rw [hb]; rfl⟩
  · intro hlv hst fmtargs
    have hg : level > log.level ∨ log.started = true := Or.inl hlv
    have hb : usbi_default_logger_entry_begin log level file func line stamp tid = (log, []) := by
      simp [usbi_default_logger_entry_begin, hg]
    rw [hb]
    constructor
    · simp [usbi_default_logger_entry_extend, hst]
    · simp [usbi_default_logger_entry_end, hst]

/-- Witness for claim C7 at a concrete logger: threshold WARNING, idle,
begin at DEBUG is filtered; the suppressed begin and the following
extend/end are no-ops. -/
theorem claim_C7_suppressed_entry_noops_witness :
    (LIBUSB_LOG_LEVEL_DEBUG >
        (usbi_default_logger_set_level default_log LIBUSB_LOG_LEVEL_WARNING).level ∨
      (usbi_default_logger_set_level default_log LIBUSB_LOG_LEVEL_WARNING).started = true) ∧
    usbi_default_logger_entry_begin
        (usbi_default_logger_set_level default_log LIBUSB_LOG_LEVEL_WARNING)
        LIBUSB_LOG_LEVEL_DEBUG 0 7 0 0 0
      = (usbi_default_logger_set_level default_log LIBUSB_LOG_LEVEL_WARNING, []) := by
  constructor
  · exact Or.inl (by decide)
  · exact ((claim_C7_suppressed_entry_noops
      (usbi_default_logger_set_level default_log LIBUSB_LOG_LEVEL_WARNING)
      LIBUSB_LOG_LEVEL_DEBUG 0 7 0 0 0).1 (Or.inl (by decide))).1

/-- Claim C8: a non-suppressed begin selects the stream by level — error
and warning to stderr, info/debug/trace to stdout — and its writes are
exactly: for verbose levels (debug, trace) the two column-header lines
when the header was not yet printed, then the timestamp/thread-id item,
then always the level/function item, all on the selected stream; the
header is never written for non-verbose entries, and over any whole call
sequence from the initial logger it is written at most once per process. -/
theorem claim_C8_stream_selection_and_header_once (log : usbi_default_logger_log) (level : Int)
    (file func : Nat) (line : Int) (stamp : Int) (tid : Nat)
    (hlev : level ≤ log.level) (hidle : log.started = false) :
    ((usbi_default_logger_entry_begin log level file func line stamp tid).1.stream
      = some (if level ≤ LIBUSB_LOG_LEVEL_WARNING then CFile.stderrF else CFile.stdoutF)) ∧
    ((usbi_default_logger_entry_begin log level file func line stamp tid).2
      = (if LIBUSB_LOG_LEVEL_DEBUG ≤ level then
          (if log.header = false then
            [(some (if level ≤ LIBUSB_LOG_LEVEL_WARNING then CFile.stderrF else CFile.stdoutF),
               LogOut.headerCols),
             (some (if level ≤ LIBUSB_LOG_LEVEL_WARNING then CFile.stderrF else CFile.stdoutF),
               LogOut.headerRule)]
           else [])
          ++ [(some (if level ≤ LIBUSB_LOG_LEVEL_WARNING then CFile.stderrF else CFile.stdoutF),
               LogOut.stampTid stamp tid)]
         else [])
        ++ [(some (if level ≤ LIBUSB_LOG_LEVEL_WARNING then CFile.stderrF else CFile.stdoutF),
             LogOut.levelFunc (libusb_log_level_str level) func)]) ∧
    (level < LIBUSB_LOG_LEVEL_DEBUG →
      headerCount (usbi_default_logger_entry_begin log level file func line stamp tid).2 = 0) ∧
    (∀ cs : List LogCall, headerCount (runLog default_log cs).2 ≤ 1) := by
  have hg : ¬ (level > log.level ∨ log.started = true) := by
    simp [not_lt.mpr hlev, hidle]
  refine ⟨?_, ?_, ?_, ?_⟩
  · by_cases hv : level ≥ LIBUSB_LOG_LEVEL_DEBUG
    · by_cases hh : log.header = false <;>
        simp [usbi_default_logger_entry_begin, usbi_default_logger_header, hg, hv, hh]
    · simp [usbi_default_logger_entry_begin, usbi_default_logger_header, hg, hv]
  · by_cases hv : LIBUSB_LOG_LEVEL_DEBUG ≤ level
    · by_cases hh : log.header = false <;>
        simp [usbi_default_logger_entry_begin, usbi_default_logger_header, hg, hv, hh, ge_iff_le]
    · simp [usbi_default_logger_entry_begin, usbi_default_logger_header, hg, hv, ge_iff_le]
  · intro hv
    have hv' : ¬ level ≥ LIBUSB_LOG_LEVEL_DEBUG := not_le.mpr hv
    simp [usbi_default_logger_entry_begin, usbi_default_logger_header, hg, hv', headerCount]
  · intro cs
    have h := runLog_headerCount cs default_log
    cases hh : (runLog default_log cs).1.header <;>
      simp [hh, default_log] at h ⊢ <;> omega

/-- Witness for claim C8: non-suppressed concrete begins at levels ERROR
(stderr, no header) and DEBUG (stdout, header first). -/
theorem claim_C8_stream_selection_and_header_once_witness :
    (LIBUSB_LOG_LEVEL_ERROR
        ≤ (usbi_default_logger_set_level default_log LIBUSB_LOG_LEVEL_TRACE).level ∧
      (usbi_default_logger_set_level default_log LIBUSB_LOG_LEVEL_TRACE).started = false) ∧
    ((usbi_default_logger_entry_begin
        (usbi_default_logger_set_level default_log LIBUSB_LOG_LEVEL_TRACE)
        LIBUSB_LOG_LEVEL_ERROR 0 7 0 0 0).1.stream = some CFile.stderrF) ∧
    ((usbi_default_logger_entry_begin
        (usbi_default_logger_set_level default_log LIBUSB_LOG_LEVEL_TRACE)
        LIBUSB_LOG_LEVEL_DEBUG 0 7 0 0 0).1.stream = some CFile.stdoutF) := by
  refine ⟨⟨by decide, by decide⟩, ?_, ?_⟩
  · have h := (claim_C8_stream_selection_and_header_once
      (usbi_default_logger_set_level default_log LIBUSB_LOG_LEVEL_TRACE)
      LIBUSB_LOG_LEVEL_ERROR 0 7 0 0 0 (by decide) (by decide)).1
    simpa using h
  · have h := (claim_C8_stream_selection_and_header_once
      (usbi_default_logger_set_level default_log LIBUSB_LOG_LEVEL_TRACE)
      LIBUSB_LOG_LEVEL_DEBUG 0 7 0 0 0 (by decide) (by decide)).1
    simpa using h

/-- Claim C9: the bounded formatter of the buffered backend never writes
past the remaining capacity (one byte is always reserved for the
terminating NUL and written+remaining is conserved), preserves exactly
the partial content that fits, returns the truncation flag exactly when
the full output (plus its NUL) did not fit, and once the buffer is full
further extend calls of the buffered backend silently drop their
content. -/
theorem claim_C9_bufprintf_bounded (out : List Char) (len : Nat) (s : List Char) :
    ((usbi_bufprintf out len s).1 = out ++ s.take (min s.length (len - 1))) ∧
    ((usbi_bufprintf out len s).1.length + (usbi_bufprintf out len s).2.1
      = out.length + len) ∧
    ((usbi_bufprintf out len s).2.2 = true ↔ len < s.length + 1) ∧
    (len ≠ 0 → 1 ≤ (usbi_bufprintf out len s).2.1) ∧
    (∀ log : usbi_android_logger_log, log.started = false ∨ log.space = 0 →
      usbi_android_logger_entry_extend log s = log) ∧
    (∀ log : usbi_android_logger_log, log.space ≤ 1 →
      (usbi_android_logger_entry_extend log s).buffer = log.buffer) := by
  refine ⟨?_, ?_, ?_, ?_, ?_, ?_⟩
  · by_cases h0 : len = 0
    · simp [usbi_bufprintf, h0]
    · by_cases ht : s.length ≥ len
      · have : min s.length (len - 1) = len - 1 := by omega
        simp [usbi_bufprintf, h0, ht, this]
      · have : min s.length (len - 1) = s.length := by omega
        simp [usbi_bufprintf, h0, ht, this]
  · by_cases h0 : len = 0
    · simp [usbi_bufprintf, h0]
    · by_cases ht : s.length ≥ len
      · simp [usbi_bufprintf, h0, ht]
        have h1 : (s.take (len - 1)).length = len - 1 := by
          simp [List.length_take]
          omega
        omega
      · simp [usbi_bufprintf, h0, ht]
        omega
  · by_cases h0 : len = 0
    · simp [usbi_bufprintf, h0]
    · by_cases ht : s.length ≥ len
      · simp [usbi_bufprintf, h0, ht]
        omega
      · simp [usbi_bufprintf, h0, ht]
        omega
  · intro h0
    by_cases ht : s.length ≥ len
    · simp [usbi_bufprintf, h0, ht]
      omega
    · simp [usbi_bufprintf, h0, ht]
      omega
  · intro log hlog
    rcases hlog with h | h
    · have : ¬ log.started = true := by simp [h]
      simp [usbi_android_logger_entry_extend, this]
    · simp [usbi_android_logger_entry_extend, h]
  · intro log hsp
    by_cases hs : log.started = true
    · by_cases h0 : log.space = 0
      · simp [usbi_android_logger_entry_extend, h0]
      · have h1 : log.space = 1 := by omega
        by_cases ht : s.length ≥ 1
        · simp [usbi_android_logger_entry_extend, hs, h0, usbi_bufprintf, h1, ht]
        · have hsz : s.length = 0 := by omega
          have hse : s = [] := List.length_eq_zero.mp hsz
          simp [usbi_android_logger_entry_extend, hs, h0, usbi_bufprintf, h1, hse]
    · have : ¬ log.started = true := hs
      simp [usbi_android_logger_entry_extend, this]

/-- Witness for claim C9: a concrete truncating call (capacity 4, content
of length 5) and a concrete full-buffer extend that drops its content. -/
theorem claim_C9_bufprintf_bounded_witness :
    (4 : Nat) ≠ 0 ∧
    1 ≤ (usbi_bufprintf [] 4 ['h', 'e', 'l', 'l', 'o']).2.1 ∧
    ({ level := 3, started := true, prio := 0, buffer := ['x'], space := 1 }
        : usbi_android_logger_log).space ≤ 1 ∧
    (usbi_android_logger_entry_extend
      { level := 3, started := true, prio := 0, buffer := ['x'], space := 1 }
      ['h', 'e', 'l', 'l', 'o']).buffer = ['x'] := by
  refine ⟨by decide, ?_, by decide, ?_⟩
  · exact (claim_C9_bufprintf_bounded [] 4 ['h', 'e', 'l', 'l', 'o']).2.2.2.1 (by decide)
  · exact (claim_C9_bufprintf_bounded ['x'] 1 ['h', 'e', 'l', 'l', 'o']).2.2.2.2.2
      { level := 3, started := true, prio := 0, buffer := ['x'], space := 1 } (by decide)
